import Mathlib

/-!
Verification of the multi-dimensional data-source addressing core of
`PYME/IO/DataSources/BaseDataSource.py`.

The Python classes are shallowly embedded: pure computations become Lean
functions, numpy arrays become nested lists of integers, raised exceptions
become `Except PyErr`, and the single-slice cache of the legacy datasource
becomes explicit state passing.
-/

/-- Python exceptions that the modelled code can raise. -/
inductive PyErr where
  | runtimeError
  | valueError
  | indexError
  | typeError
  | nameError
  | zeroDivisionError
  deriving DecidableEq, Repr

/-- Models `input_order.startswith('XY')` (first two characters are `X`, `Y`). -/
def pyStartsWithXY (s : String) : Bool :=
  s.data.take 2 = ['X', 'Y']

/-- The stride table computed by `XYZTCDataSource.__init__`: given the declared
input order and the declared sizes, returns `(z_stride, t_stride, c_stride)`,
or raises `RuntimeError` for an unsupported order / an order not starting
with `XY`. -/
def XYZTCDataSource_strides (input_order : String) (size_z size_t size_c : ℕ) :
    Except PyErr (ℕ × ℕ × ℕ) :=
  if ¬ pyStartsWithXY input_order then .error .runtimeError
  else if input_order = "XYZTC" then .ok (1, size_z, size_z * size_t)
  else if input_order = "XYTZC" then .ok (size_t, 1, size_z * size_t)
  else if input_order = "XYZCT" then .ok (1, size_z * size_c, size_z)
  else if input_order = "XYTCZ" then .ok (size_t * size_c, 1, size_t)
  else if input_order = "XYCZT" then .ok (size_c, size_c * size_z, 1)
  else if input_order = "XYCTZ" then .ok (size_t * size_c, size_c, 1)
  else .error .runtimeError

/-- Mixed-radix encoding `a + b*A + c*(A*B)`: the common shape of all six
stride maps, up to permuting the three axes. -/
def mixedRadix (A B : ℕ) (a b c : ℕ) : ℕ :=
  a + b * A + c * (A * B)

/-! ## Python 3 true division of integers, as used by `int(self.getNumSlices()/self.sizeC)`

CPython's `long_true_divide` returns the 53-bit binary64 double nearest to the
exact rational `n/c` (ties to even); `int(...)` then truncates toward zero.
We model this with exact integer arithmetic: find the binary exponent `e` of
`n/c`, scale the quotient into `[2^52, 2^53)`, round half-to-even, and
truncate `m * 2^(e-52)`.  Exponent overflow/underflow of binary64 is not
modelled (irrelevant for any count below `2^1024`). -/

/-- Largest `k` with `c * 2^k ≤ n`, by doubling `c` (call with `fuel ≥ n`,
`1 ≤ c ≤ n`). -/
def qlog2Aux : ℕ → ℕ → ℕ → ℕ
  | 0, _, _ => 0
  | fuel + 1, n, c => if c * 2 ≤ n then qlog2Aux fuel n (c * 2) + 1 else 0

/-- `⌊log2 (n/c)⌋` for `1 ≤ c ≤ n`. -/
def qlog2 (n c : ℕ) : ℕ := qlog2Aux n n c

/-- Smallest `d` with `c ≤ n * 2^d`, by doubling `n` (call with `fuel ≥ c`,
`1 ≤ n`). -/
def qclog2Aux : ℕ → ℕ → ℕ → ℕ
  | 0, _, _ => 0
  | fuel + 1, n, c => if c ≤ n then 0 else qclog2Aux fuel (n * 2) c + 1

/-- `-⌊log2 (n/c)⌋` for `1 ≤ n < c`. -/
def qclog2 (n c : ℕ) : ℕ := qclog2Aux c n c

/-- Round the nonnegative fraction `p/q` to the nearest integer, ties to even. -/
def rheFrac (p q : ℕ) : ℕ :=
  let f := p / q
  let r := p % q
  if 2 * r < q then f
  else if q < 2 * r then f + 1
  else if f % 2 = 0 then f else f + 1

/-- `int(n/c)` in Python 3 for nonnegative integers `n`, `c > 0`: the exact
quotient is rounded to 53 significant bits (nearest, ties to even) and the
resulting double truncated toward zero. -/
def pyIntTrueDiv (n c : ℕ) : ℕ :=
  if n = 0 then 0
  else
    let e : ℤ := if c ≤ n then (qlog2 n c : ℤ) else -(qclog2 n c : ℤ)
    -- p/q = (n/c) * 2^(52-e), scaled into [2^52, 2^53)
    let p : ℕ := n * 2 ^ (52 - e).toNat
    let q : ℕ := c * 2 ^ (e - 52).toNat
    let m : ℕ := rheFrac p q
    if 52 ≤ e then m * 2 ^ (e - 52).toNat else m / 2 ^ (52 - e).toNat

/-! ## Python index specifiers, `slice.indices`, and `range` -/

/-- A Python `slice(start, stop, step)` object; fields may be `None`. -/
structure PySlice where
  start : Option ℤ
  stop : Option ℤ
  step : Option ℤ
  deriving DecidableEq, Repr

/-- One index specifier passed to `__getitem__`: a bare integer or a slice. -/
inductive PySpec where
  | int (k : ℤ)
  | slc (s : PySlice)
  deriving DecidableEq, Repr

/-- The specifier-normalisation loop shared by `XYTCDataSource.__getitem__`
and `XYZTCDataSource.__getitem__`: a bare integer `k` becomes
`slice(k, k+1)`, except `-1`, which becomes `slice(-1, None)`. -/
def normSpec : PySpec → PySlice
  | .int k => if k = -1 then ⟨some (-1), none, none⟩ else ⟨some k, some (k + 1), none⟩
  | .slc s => s

def normKeys (keys : List PySpec) : List PySlice := keys.map normSpec

/-- CPython's `slice.indices(length)` clamping algorithm
(`PySlice_GetIndicesEx`); raises `ValueError` on step 0. -/
def sliceIndices (s : PySlice) (length : ℤ) : Except PyErr (ℤ × ℤ × ℤ) := do
  let step := s.step.getD 1
  if step = 0 then throw .valueError
  let lower : ℤ := if step < 0 then -1 else 0
  let upper : ℤ := if step < 0 then length - 1 else length
  let start :=
    match s.start with
    | none => if step < 0 then upper else lower
    | some v => if v < 0 then max (v + length) lower else min v upper
  let stop :=
    match s.stop with
    | none => if step < 0 then lower else upper
    | some v => if v < 0 then max (v + length) lower else min v upper
  return (start, stop, step)

/-- Number of elements of Python `range(start, stop, step)` (`step ≠ 0`). -/
def pyRangeLen (start stop step : ℤ) : ℕ :=
  if 0 < step then ((stop - start + step - 1) / step).toNat
  else ((start - stop + (-step) - 1) / (-step)).toNat

/-- The elements of Python `range(start, stop, step)`. -/
def pyRange (t : ℤ × ℤ × ℤ) : List ℤ :=
  (List.range (pyRangeLen t.1 t.2.1 t.2.2)).map (fun i => t.1 + t.2.2 * i)

/-! ## numpy values

A 2-D slice is a rectangular list of lists of integers; the 3-D / 4-D stacks
produced by the legacy read are lists along the trailing axis. -/

abbrev Plane := List (List ℤ)

def planeDims (p : Plane) : ℕ × ℕ := (p.length, (p.headD []).length)

/-- `getSlice(i)[keys[0], keys[1]]`: numpy basic slicing of a 2-D array by two
slice objects.  (`np.atleast_2d` around it is the identity here: slicing a
2-D array with two slices is always 2-D.)  After `slice.indices` clamping,
every generated index lies in `[0, axis length)`, so the `getD` defaults are
never consulted. -/
def cropPlane (p : Plane) (k0 k1 : PySlice) : Except PyErr Plane := do
  let t0 ← sliceIndices k0 (p.length : ℤ)
  let t1 ← sliceIndices k1 ((p.headD []).length : ℤ)
  let rows := (pyRange t0).map (fun i => (p[i.toNat]?).getD [])
  return rows.map (fun row => (pyRange t1).map (fun j => (row[j.toNat]?).getD 0))

/-- A 3-D stack `np.concatenate([... [:,:,None] ...], 2)`: indexed along
axis 2 by the list. -/
abbrev Np3 := List Plane

/-- `np.concatenate(planes, 2)`: raises `ValueError` on an empty list or on
mismatched plane shapes. -/
def npConcat3 (ps : List Plane) : Except PyErr Np3 :=
  match ps with
  | [] => .error .valueError
  | p :: rest =>
    if rest.all (fun q => decide (planeDims q = planeDims p)) then .ok (p :: rest)
    else .error .valueError

def np3Dims (x : Np3) : ℕ × ℕ × ℕ := (x.length, planeDims (x.headD []))

/-- `np.concatenate([r_i[:,:,:,None] ...], 3)`: raises `ValueError` on an
empty list or on mismatched 3-D shapes. -/
def npConcat4 (rs : List Np3) : Except PyErr (List Np3) :=
  match rs with
  | [] => .error .valueError
  | x :: rest =>
    if rest.all (fun y => decide (np3Dims y = np3Dims x)) then .ok (x :: rest)
    else .error .valueError

/-- A legacy read result: a 3-D stack, or a 4-D stack (list over channels of
3-D stacks). -/
inductive NpArr where
  | d3 (x : Np3)
  | d4 (x : List Np3)
  deriving DecidableEq, Repr

/-! ## The legacy datasource (`XYTCDataSource`)

The abstract slice source (`getSlice` / `getSliceShape` / `getNumSlices`) is
modelled by a concrete list of physical planes plus a declared slice shape;
`getSlice` fails with `IndexError` outside `[0, numSlices)`. -/

structure XYTCDataSource where
  /-- class attribute, default `'T'` -/
  additionalDims : String := "T"
  /-- class attribute, default 1 -/
  sizeC : ℕ := 1
  /-- `getSliceShape()` of the wrapped slice source -/
  sliceShape : ℕ × ℕ
  /-- the physical 2-D planes, in append order -/
  slices : List Plane
  deriving DecidableEq, Repr

def XYTCDataSource.getNumSlices (ds : XYTCDataSource) : ℕ := ds.slices.length

def XYTCDataSource.getSlice (ds : XYTCDataSource) (i : ℤ) : Except PyErr Plane :=
  if 0 ≤ i ∧ i.toNat < ds.slices.length then .ok ((ds.slices[i.toNat]?).getD [])
  else .error .indexError

/-- `nTrueDims = 2 + len(self.additionalDims)` -/
def XYTCDataSource.nTrueDims (ds : XYTCDataSource) : ℕ := 2 + ds.additionalDims.length

/-- The third entry of the legacy 4-D shape: `int(self.getNumSlices()/self.sizeC)`. -/
def XYTCDataSource.shape2 (ds : XYTCDataSource) : ℕ :=
  pyIntTrueDiv ds.getNumSlices ds.sizeC

/-- `shape` property: `DefaultList(self.getSliceShape() + (int(self.getNumSlices()/self.sizeC), self.sizeC))`.
Computing it raises `ZeroDivisionError` when `sizeC = 0`. -/
def XYTCDataSource.shapeList (ds : XYTCDataSource) : Except PyErr (List ℤ) :=
  if ds.sizeC = 0 then .error .zeroDivisionError
  else .ok [(ds.sliceShape.1 : ℤ), (ds.sliceShape.2 : ℤ), (ds.shape2 : ℤ), (ds.sizeC : ℤ)]

/-- Ordinary Python list indexing (negative indices count from the end);
`none` models `IndexError`. -/
def pyListGet (l : List ℤ) (i : ℤ) : Option ℤ :=
  if 0 ≤ i then l[i.toNat]?
  else if 0 ≤ i + l.length then l[(i + l.length).toNat]? else none

/-- `DefaultList.__getitem__`: ordinary list indexing, but an `IndexError` is
caught and the default value 1 returned. -/
def DefaultList_getitem (l : List ℤ) (i : ℤ) : ℤ :=
  (pyListGet l i).getD 1

/-- The single-slice cache of the legacy datasource: `oldSlice` / `oldData`
class attributes, both initially `None`. -/
structure XYTCState where
  oldSlice : Option (List PySlice) := none
  oldData : Option NpArr := none
  deriving DecidableEq, Repr

/-- Read and crop the physical slices for a list of indices, counting the
`getSlice` calls issued (the second component). -/
def readCropped (ds : XYTCDataSource) (k0 k1 : PySlice) :
    List ℤ → Except PyErr (List Plane) × ℕ
  | [] => (.ok [], 0)
  | i :: rest =>
    match ds.getSlice i with
    | .error e => (.error e, 1)
    | .ok p =>
      match cropPlane p k0 k1 with
      | .error e => (.error e, 1)
      | .ok cp =>
        match readCropped ds k0 k1 rest with
        | (.ok ps, n) => (.ok (cp :: ps), n + 1)
        | (.error e, n) => (.error e, n + 1)

/-- The `nTrueDims <= 3 and not additionalDims == 'C'` branch of
`XYTCDataSource.__getitem__`: stack the slices of the requested extra-axis
range, cropped to the X/Y sub-region, along a new trailing axis.  Accessing
`keys[2]` on a shorter key list raises `IndexError`. -/
def XYTCDataSource_branchA (ds : XYTCDataSource) (nk : List PySlice) :
    Except PyErr NpArr × ℕ :=
  match nk with
  | k0 :: k1 :: k2 :: _ =>
    match sliceIndices k2 (ds.getNumSlices : ℤ) with
    | .error e => (.error e, 0)
    | .ok tr =>
      match readCropped ds k0 k1 (pyRange tr) with
      | (.ok ps, n) => ((npConcat3 ps).map NpArr.d3, n)
      | (.error e, n) => (.error e, n)
  | _ => (.error .indexError, 0)

/-- One channel of the interleaved branch: deinterleave the requested time
range for channel `ci` (`'TC'`: `t + ci*shape[2]`; `'CT'`/`'C'`:
`t*shape[3] + ci`; any other tag leaves `indices` unbound → `NameError`),
then read, crop and stack. -/
def XYTCDataSource_channel (ds : XYTCDataSource) (k0 k1 k2 : PySlice)
    (shape2 shape3 : ℕ) (ci : ℤ) : Except PyErr Np3 × ℕ :=
  match sliceIndices k2 (shape2 : ℤ) with
  | .error e => (.error e, 0)
  | .ok tr =>
    let is : Except PyErr (List ℤ) :=
      if ds.additionalDims = "TC" then .ok ((pyRange tr).map (fun t => t + ci * shape2))
      else if ds.additionalDims = "CT" ∨ ds.additionalDims = "C" then
        .ok ((pyRange tr).map (fun t => t * shape3 + ci))
      else .error .nameError
    match is with
    | .error e => (.error e, 0)
    | .ok is =>
      match readCropped ds k0 k1 is with
      | (.error e, n) => (.error e, n)
      | (.ok ps, n) => (npConcat3 ps, n)

/-- Loop of the interleaved branch over the requested channel values. -/
def XYTCDataSource_channels (ds : XYTCDataSource) (k0 k1 k2 : PySlice)
    (shape2 shape3 : ℕ) : List ℤ → Except PyErr (List Np3) × ℕ
  | [] => (.ok [], 0)
  | ci :: rest =>
    match XYTCDataSource_channel ds k0 k1 k2 shape2 shape3 ci with
    | (.error e, n) => (.error e, n)
    | (.ok x, n) =>
      match XYTCDataSource_channels ds k0 k1 k2 shape2 shape3 rest with
      | (.ok xs, n₂) => (.ok (x :: xs), n + n₂)
      | (.error e, n₂) => (.error e, n + n₂)

/-- The `nTrueDims == 4 or additionalDims == 'C'` branch of
`XYTCDataSource.__getitem__`.  `keys[3]` on a 3-element key list raises
`IndexError`; `self.shape` raises `ZeroDivisionError` when `sizeC = 0`;
per-channel stacks are concatenated along a new axis 3 when more than one
channel was requested, and `r[0]` of an empty channel list raises
`IndexError`. -/
def XYTCDataSource_branchB (ds : XYTCDataSource) (nk : List PySlice) :
    Except PyErr NpArr × ℕ :=
  match nk with
  | k0 :: k1 :: k2 :: k3 :: _ =>
    if ds.sizeC = 0 then (.error .zeroDivisionError, 0)
    else
      let shape2 := ds.shape2
      let shape3 := ds.sizeC
      match sliceIndices k3 (shape3 : ℤ) with
      | .error e => (.error e, 0)
      | .ok ct =>
        match XYTCDataSource_channels ds k0 k1 k2 shape2 shape3 (pyRange ct) with
        | (.error e, n) => (.error e, n)
        | (.ok r, n) =>
          if 1 < r.length then ((npConcat4 r).map NpArr.d4, n)
          else
            match r with
            | [x] => (.ok (.d3 x), n)
            | _ => (.error .indexError, n)
  | _ => (.error .indexError, 0)

/-- The body of `XYTCDataSource.__getitem__` after normalisation, on a cache
miss: dispatch on the declared dimensionality.  When neither branch matches
(3 or more extra axes), `r` is never bound and `self.oldData = r` raises
`NameError`. -/
def XYTCDataSource_compute (ds : XYTCDataSource) (nk : List PySlice) :
    Except PyErr NpArr × ℕ :=
  if ds.additionalDims.length ≤ 1 ∧ ds.additionalDims ≠ "C" then
    XYTCDataSource_branchA ds nk
  else if ds.additionalDims.length = 2 ∨ ds.additionalDims = "C" then
    XYTCDataSource_branchB ds nk
  else (.error .nameError, 0)

/-- `XYTCDataSource.__getitem__`: normalise the key list; if it equals the
cached `oldSlice`, return the cached `oldData` without any physical read;
otherwise set `oldSlice` (before any read is issued), compute, and set
`oldData` only on success.  Returns the result (the cached `oldData` may be
Python `None`), the new cache state, and the number of `getSlice` calls. -/
def XYTCDataSource_getitem (ds : XYTCDataSource) (st : XYTCState)
    (keys : List PySpec) : Except PyErr (Option NpArr) × XYTCState × ℕ :=
  let nk := normKeys keys
  if st.oldSlice = some nk then (.ok st.oldData, st, 0)
  else
    match XYTCDataSource_compute ds nk with
    | (.ok r, n) => (.ok (some r), ⟨some nk, some r⟩, n)
    | (.error e, n) => (.error e, ⟨some nk, st.oldData⟩, n)

/-! ## The canonical 5-D datasource (`XYZTCDataSource` / `XYZTCWrapper`)

`XYZTCDataSource` is abstract (`shape` and `getSlice` come from a subclass);
the concrete instantiation in this module is `XYZTCWrapper`, which stores
`_shape = sliceShape + (size_z, size_t, size_c)` and delegates slice access
to the wrapped legacy datasource. -/

structure XYZTCWrapper where
  input_order : String
  z_stride : ℕ
  t_stride : ℕ
  c_stride : ℕ
  size_z : ℕ
  size_t : ℕ
  size_c : ℕ
  /-- the wrapped datasource -/
  base : XYTCDataSource
  deriving DecidableEq, Repr

/-- `XYZTCWrapper.__init__`: runs `XYZTCDataSource.__init__` (stride table,
may raise `RuntimeError`), then stores the wrapped source and its shape. -/
def XYZTCWrapper_mk (ds : XYTCDataSource) (input_order : String)
    (size_z size_t size_c : ℕ) : Except PyErr XYZTCWrapper :=
  (XYZTCDataSource_strides input_order size_z size_t size_c).map
    (fun s => ⟨input_order, s.1, s.2.1, s.2.2, size_z, size_t, size_c, ds⟩)

/-- The wrapper's `shape` property (5-tuple). -/
def XYZTCWrapper.shape (w : XYZTCWrapper) : List ℕ :=
  [w.base.sliceShape.1, w.base.sliceShape.2, w.size_z, w.size_t, w.size_c]

def XYZTCWrapper.getSlice (w : XYZTCWrapper) (i : ℤ) : Except PyErr Plane :=
  w.base.getSlice i

/-- `XYZTCWrapper.auto_promote`: `'CT'` sources promote with order `'XYZCT'`,
`size_z = 1`, `size_t = shape[2]`; otherwise order `'XYZTC'` with the
extra-axis extent interpreted as time when `shape[2] > 100` and as depth
otherwise; `size_c = data.shape[3]`.  Reading `data.shape` raises
`ZeroDivisionError` when `sizeC = 0`. -/
def XYZTCWrapper_auto_promote (ds : XYTCDataSource) : Except PyErr XYZTCWrapper :=
  if ds.sizeC = 0 then .error .zeroDivisionError
  else
    if ds.additionalDims = "CT" then
      XYZTCWrapper_mk ds "XYZCT" 1 ds.shape2 ds.sizeC
    else
      if 100 < ds.shape2 then XYZTCWrapper_mk ds "XYZTC" 1 ds.shape2 ds.sizeC
      else XYZTCWrapper_mk ds "XYZTC" ds.shape2 1 ds.sizeC

/-- The dense 5-D output buffer of `XYZTCDataSource.__getitem__`: `dims` is
the allocated shape (`np.zeros([_slice_len(slice(*indices[k])) for k in
'XYZTC'])`) and `grid` holds, for each index on axes 2, 3, 4, the X×Y plane
written at that cell. -/
structure Arr5 where
  dims : List ℕ
  grid : List (List (List Plane))
  deriving DecidableEq, Repr

/-- `_slice_len(s) = (s.stop - s.start) // s.step` (Python floor division). -/
def pySliceLen (t : ℤ × ℤ × ℤ) : ℤ :=
  Int.fdiv (t.2.1 - t.1) t.2.2

/-- numpy broadcast of a 2-D value against target shape `(d0, d1)`: axes of
extent 1 stretch, anything else mismatching fails. -/
def npBroadcast2 (p : Plane) (d0 d1 : ℕ) : Option Plane :=
  let rowFix : List ℤ → Option (List ℤ) := fun row =>
    if row.length = d1 then some row
    else if row.length = 1 then some (List.replicate d1 (row.headD 0))
    else none
  let rows : Option (List (List ℤ)) :=
    if p.length = d0 then some p
    else if p.length = 1 then some (List.replicate d0 (p.headD []))
    else none
  rows.bind (fun rs => rs.mapM rowFix)

/-- `out[:, :, zi, ci, ti] = value`: numpy first bounds-checks the integer
indices on axes 2, 3, 4 (`IndexError`), then broadcasts the right-hand side
against the X×Y cell (`ValueError` on mismatch). -/
def arr5Set (g : List (List (List Plane))) (zi i3 i4 : ℕ) (d0 d1 : ℕ)
    (p : Plane) : Except PyErr (List (List (List Plane))) :=
  match g[zi]? with
  | none => .error .indexError
  | some g2 =>
    match g2[i3]? with
    | none => .error .indexError
    | some g3 =>
      if i4 < g3.length then
        match npBroadcast2 p d0 d1 with
        | none => .error .valueError
        | some p2 => .ok (g.set zi (g2.set i3 (g3.set i4 p2)))
      else .error .indexError

/-- `XYZTCDataSource.__getitem__` (with `shape` and `getSlice` supplied by
`XYZTCWrapper`): exactly 5 specifiers (`RuntimeError` otherwise), each
normalised and clamped against the declared shape; a dense buffer of shape
`[_slice_len(indices[k]) for k in 'XYZTC']` is allocated (`np.zeros` raises
`ValueError` on a negative length), and for every requested (c, t, z) —
channels outermost — the physical slice `c*c_stride + t*t_stride +
z*z_stride` is cropped to the X/Y sub-region and written to
`out[:, :, zi, ci, ti]`. -/
def XYZTCDataSource_getitem (w : XYZTCWrapper) (keys : List PySpec) :
    Except PyErr Arr5 :=
  match keys with
  | [q0, q1, q2, q3, q4] => do
    let k0 := normSpec q0
    let k1 := normSpec q1
    let k2 := normSpec q2
    let k3 := normSpec q3
    let k4 := normSpec q4
    let tX ← sliceIndices k0 (w.base.sliceShape.1 : ℤ)
    let tY ← sliceIndices k1 (w.base.sliceShape.2 : ℤ)
    let tZ ← sliceIndices k2 (w.size_z : ℤ)
    let tT ← sliceIndices k3 (w.size_t : ℤ)
    let tC ← sliceIndices k4 (w.size_c : ℤ)
    let lens : List ℤ := [pySliceLen tX, pySliceLen tY, pySliceLen tZ,
      pySliceLen tT, pySliceLen tC]
    if lens.any (fun v => v < 0) then throw .valueError
    let dims : List ℕ := lens.map Int.toNat
    let d0 := dims.headD 0
    let d1 := (dims[1]?).getD 0
    let plane0 : Plane := List.replicate d0 (List.replicate d1 (0 : ℤ))
    let grid0 : List (List (List Plane)) :=
      List.replicate ((dims[2]?).getD 0)
        (List.replicate ((dims[3]?).getD 0)
          (List.replicate ((dims[4]?).getD 0) plane0))
    let grid ← (pyRange tC).enum.foldlM (fun g cic =>
      (pyRange tT).enum.foldlM (fun g tit =>
        (pyRange tZ).enum.foldlM (fun g ziz => do
          let slice_idx : ℤ := (w.c_stride : ℤ) * cic.2 + (w.t_stride : ℤ) * tit.2
            + (w.z_stride : ℤ) * ziz.2
          let p ← w.getSlice slice_idx
          let cp ← cropPlane p k0 k1
          arr5Set g ziz.1 cic.1 tit.1 d0 d1 cp) g) g) grid0
    return ⟨dims, grid⟩
  | _ => .error .runtimeError

/-! ## `XYTCWrapper` (canonical → legacy flattening) -/

/-- `XYTCWrapper.__init__`: presents a canonical datasource under the legacy
contract with `sizeC = datasource.shape[4]` and `additionalDims = 'TC'`;
slice-level access is delegated unchanged. -/
def XYTCWrapper_mk (w : XYZTCWrapper) : XYTCDataSource :=
  { additionalDims := "TC"
    sizeC := w.size_c
    sliceShape := w.base.sliceShape
    slices := w.base.slices }

/-! ## `is_complete` forwarding

`BaseDataSource.is_complete` is a *property* that evaluates to a `bool`
(`True` for every in-repo datasource), but both wrappers forward it as
`return self._datasource.is_complete()` — calling the bool object, which
raises `TypeError`. -/

/-- The value of the `BaseDataSource.is_complete` property. -/
def BaseDataSource_is_complete : Bool := true

/-- Python call of a `bool` object: always `TypeError`. -/
def pyCallBool (_b : Bool) : Except PyErr Bool := .error .typeError

/-- `XYZTCWrapper.is_complete`: evaluates the wrapped source's `is_complete`
property (a bool) and calls it. -/
def XYZTCWrapper_is_complete (wrapped_flag : Bool) : Except PyErr Bool :=
  pyCallBool wrapped_flag

/-- `XYTCWrapper.is_complete`: evaluates the wrapped canonical source's
`is_complete` property (which may itself raise) and calls the result. -/
def XYTCWrapper_is_complete (wrapped : Except PyErr Bool) : Except PyErr Bool :=
  wrapped.bind pyCallBool

/-! ## Concrete fixtures used by witnesses and counterexamples -/

/-- `slice(None)` — the full-range specifier `:`. -/
def slcAll : PySpec := .slc ⟨none, none, none⟩

/-- A 1×1 marker plane holding the value `v`. -/
def markerPlane (v : ℤ) : Plane := [[v]]

/-- Legacy source, plain time series: 3 marker slices, one channel. -/
def dsT3 : XYTCDataSource :=
  { additionalDims := "T", sizeC := 1, sliceShape := (1, 1)
    slices := [markerPlane 0, markerPlane 1, markerPlane 2] }

/-- Legacy source, plain time series of 2 marker slices (extent ≤ 100). -/
def dsT2 : XYTCDataSource :=
  { additionalDims := "T", sizeC := 1, sliceShape := (1, 1)
    slices := [markerPlane 0, markerPlane 1] }

/-- Legacy source with 101 marker slices (extent > 100). -/
def dsLong : XYTCDataSource :=
  { additionalDims := "T", sizeC := 1, sliceShape := (1, 1)
    slices := (List.range 101).map (fun i => markerPlane (i : ℤ)) }

/-- Legacy source declaring a `'CT'` interleave with two channels. -/
def dsCT : XYTCDataSource :=
  { additionalDims := "CT", sizeC := 2, sliceShape := (1, 1)
    slices := [markerPlane 0, markerPlane 1, markerPlane 2, markerPlane 3] }

/-- Legacy source declaring a `'CT'` interleave with a single channel. -/
def dsCT1 : XYTCDataSource :=
  { additionalDims := "CT", sizeC := 1, sliceShape := (1, 1)
    slices := [markerPlane 0, markerPlane 1] }

/-- Legacy source declaring a `'TC'` interleave with two channels. -/
def dsTC : XYTCDataSource :=
  { additionalDims := "TC", sizeC := 2, sliceShape := (1, 1)
    slices := [markerPlane 0, markerPlane 1, markerPlane 2, markerPlane 3] }

/-- Index specifiers `(:, :, 0)`. -/
def keysA3 : List PySpec := [slcAll, slcAll, .int 0]

/-- Index specifiers `(:, :, slice(5, 5))` — an empty extra-axis range. -/
def keysB3 : List PySpec := [slcAll, slcAll, .slc ⟨some 5, some 5, none⟩]

/-- Full-range 4-axis specifiers `(:, :, :, :)`. -/
def keys4 : List PySpec := [slcAll, slcAll, slcAll, slcAll]

/-- Full-range 5-axis specifiers `(:, :, :, :, :)`. -/
def keys5 : List PySpec := [slcAll, slcAll, slcAll, slcAll, slcAll]

/-- The read result of `dsT3[:, :, 0]`. -/
def arrA : NpArr := .d3 [[[0]]]

/-- Cache state after reading `dsT3[keysA3]`. -/
def stA3 : XYTCState := ⟨some (normKeys keysA3), some arrA⟩

/-- Cache state after the failed read `dsT3[keysB3]` issued from `stA3`. -/
def stB3 : XYTCState := ⟨some (normKeys keysB3), some arrA⟩


/-- Index specifiers `(:, :, :, slice(5, 5))` — an empty channel range. -/
def keysEmptyC : List PySpec := [slcAll, slcAll, slcAll, .slc ⟨some 5, some 5, none⟩]

/-- The canonical wrapper built by `XYZTCWrapper(dsT2, 'XYZTC', size_z=1,
size_t=2, size_c=1)`: strides (1, 1, 2). -/
def wT2 : XYZTCWrapper := ⟨"XYZTC", 1, 1, 2, 1, 2, 1, dsT2⟩

/-- Round-trip read of the promoted-then-flattened `dsCT`: the `'TC'` rule
`index = t + c*extent` places slices 0,1 in channel 0 and 2,3 in channel 1. -/
def flatCTResult : NpArr :=
  .d4 [[markerPlane 0, markerPlane 1], [markerPlane 2, markerPlane 3]]

/-- Direct read of `dsCT`: the `'CT'` rule `index = t*sizeC + c` places
slices 0,2 in channel 0 and 1,3 in channel 1. -/
def directCTResult : NpArr :=
  .d4 [[markerPlane 0, markerPlane 2], [markerPlane 1, markerPlane 3]]


/-- Legacy source with 7 slices and 2 declared channels (count not a
multiple of the channel count). -/
def ds7 : XYTCDataSource :=
  { additionalDims := "TC", sizeC := 2, sliceShape := (1, 1)
    slices := (List.range 7).map (fun i => markerPlane (i : ℤ)) }

/-- Legacy source with `2^53 + 1` (empty) slices and one channel: the
smallest slice count at which Python's float-mediated `int(n/c)` loses
precision. -/
def dsHuge : XYTCDataSource :=
  { additionalDims := "T", sizeC := 1, sliceShape := (1, 1)
    slices := List.replicate (2 ^ 53 + 1) [] }


/-! ## Theorems -/

theorem mixedRadix_lt {A B C : ℕ} {a b c : ℕ}
    (ha : a < A) (hb : b < B) (hc : c < C) :
    mixedRadix A B a b c < A * B * C := by
  have h1 : a + b * A < A * B := by
    calc a + b * A < A + b * A := by omega
    _ = (b + 1) * A := by ring
    _ ≤ B * A := Nat.mul_le_mul_right A (Nat.succ_le_of_lt hb)
    _ = A * B := by ring
  calc mixedRadix A B a b c = a + b * A + c * (A * B) := rfl
  _ < A * B + c * (A * B) := by omega
  _ = (c + 1) * (A * B) := by ring
  _ ≤ C * (A * B) := Nat.mul_le_mul_right _ (Nat.succ_le_of_lt hc)
  _ = A * B * C := by ring

theorem addMul_inj {A : ℕ} {a u a₂ u₂ : ℕ} (ha : a < A) (ha₂ : a₂ < A)
    (h : a + u * A = a₂ + u₂ * A) : a = a₂ ∧ u = u₂ := by
  have h1 : (a + u * A) % A = a := by
    rw [Nat.add_mul_mod_self_right]; exact Nat.mod_eq_of_lt ha
  have h2 : (a₂ + u₂ * A) % A = a₂ := by
    rw [Nat.add_mul_mod_self_right]; exact Nat.mod_eq_of_lt ha₂
  have haa : a = a₂ := by rw [← h1, h, h2]
  subst haa
  have hu : u * A = u₂ * A := by omega
  have hA : 0 < A := lt_of_le_of_lt (Nat.zero_le a) ha
  exact ⟨rfl, Nat.eq_of_mul_eq_mul_right hA hu⟩

theorem mixedRadix_inj {A B : ℕ} {a b c a₂ b₂ c₂ : ℕ}
    (ha : a < A) (hb : b < B) (ha₂ : a₂ < A) (hb₂ : b₂ < B)
    (h : mixedRadix A B a b c = mixedRadix A B a₂ b₂ c₂) :
    a = a₂ ∧ b = b₂ ∧ c = c₂ := by
  have h' : a + (b + c * B) * A = a₂ + (b₂ + c₂ * B) * A := by
    have e1 : a + (b + c * B) * A = mixedRadix A B a b c := by
      unfold mixedRadix; ring
    have e2 : a₂ + (b₂ + c₂ * B) * A = mixedRadix A B a₂ b₂ c₂ := by
      unfold mixedRadix; ring
    rw [e1, e2, h]
  obtain ⟨hA1, hA2⟩ := addMul_inj ha ha₂ h'
  have h'' : b + c * B = b₂ + c₂ * B := hA2
  obtain ⟨hB1, hB2⟩ := addMul_inj hb hb₂ h''
  exact ⟨hA1, hB1, hB2⟩

theorem mixedRadix_surj {A B C : ℕ} {n : ℕ} (hn : n < A * B * C) :
    ∃ a b c, a < A ∧ b < B ∧ c < C ∧ mixedRadix A B a b c = n := by
  have hA : 0 < A := by
    rcases Nat.eq_zero_or_pos A with h | h
    · subst h; simp at hn
    · exact h
  have hB : 0 < B := by
    rcases Nat.eq_zero_or_pos B with h | h
    · subst h; simp at hn
    · exact h
  refine ⟨n % A, (n / A) % B, (n / A) / B, Nat.mod_lt _ hA, Nat.mod_lt _ hB, ?_, ?_⟩
  · have h1 : n / A < B * C := by
      rw [Nat.div_lt_iff_lt_mul hA]
      calc n < A * B * C := hn
      _ = B * C * A := by ring
    rw [Nat.div_lt_iff_lt_mul hB]
    calc n / A < B * C := h1
    _ = C * B := by ring
  · have e1 : (n / A) % B + ((n / A) / B) * B = n / A := Nat.mod_add_div' (n / A) B
    calc mixedRadix A B (n % A) ((n / A) % B) ((n / A) / B)
        = n % A + ((n / A) % B + ((n / A) / B) * B) * A := by unfold mixedRadix; ring
    _ = n % A + (n / A) * A := by rw [e1]
    _ = n := Nat.mod_add_div' n A

/-- C2: for each of the six supported order tags and all positive declared
sizes, the stride triple computed at construction makes
`(z,t,c) ↦ z*zStride + t*tStride + c*cStride` a bijection from
`[0,sizeZ)×[0,sizeT)×[0,sizeC)` onto `[0, sizeZ*sizeT*sizeC)`. -/
theorem XYZTCDataSource_stride_bijection (ord : String)
    (hord : ord = "XYZTC" ∨ ord = "XYTZC" ∨ ord = "XYZCT" ∨ ord = "XYTCZ" ∨
      ord = "XYCZT" ∨ ord = "XYCTZ")
    (sz st sc : ℕ) (hsz : 0 < sz) (hst : 0 < st) (hsc : 0 < sc) :
    ∃ zs ts cs, XYZTCDataSource_strides ord sz st sc = Except.ok (zs, ts, cs) ∧
      (∀ z t c, z < sz → t < st → c < sc →
        z * zs + t * ts + c * cs < sz * st * sc) ∧
      (∀ z t c z₂ t₂ c₂, z < sz → t < st → c < sc → z₂ < sz → t₂ < st → c₂ < sc →
        z * zs + t * ts + c * cs = z₂ * zs + t₂ * ts + c₂ * cs →
        z = z₂ ∧ t = t₂ ∧ c = c₂) ∧
      (∀ n, n < sz * st * sc →
        ∃ z t c, z < sz ∧ t < st ∧ c < sc ∧ z * zs + t * ts + c * cs = n) := by
  rcases hord with h | h | h | h | h | h <;> subst h
  · refine ⟨1, sz, sz * st, rfl, ?_, ?_, ?_⟩
    · intro z t c hz ht hc
      have e : z * 1 + t * sz + c * (sz * st) = mixedRadix sz st z t c := by
        unfold mixedRadix; ring
      rw [e]
      exact mixedRadix_lt hz ht hc
    · intro z t c z₂ t₂ c₂ hz ht hc hz₂ ht₂ hc₂ h
      have e : ∀ a b d : ℕ, a * 1 + b * sz + d * (sz * st) = mixedRadix sz st a b d := by
        intro a b d; unfold mixedRadix; ring
      rw [e z t c, e z₂ t₂ c₂] at h
      exact mixedRadix_inj hz ht hz₂ ht₂ h
    · intro n hn
      obtain ⟨a, b, d, ha, hb, hd, he⟩ := mixedRadix_surj hn
      refine ⟨a, b, d, ha, hb, hd, ?_⟩
      have e : a * 1 + b * sz + d * (sz * st) = mixedRadix sz st a b d := by
        unfold mixedRadix; ring
      rw [e]; exact he
  · refine ⟨st, 1, sz * st, rfl, ?_, ?_, ?_⟩
    · intro z t c hz ht hc
      have e : z * st + t * 1 + c * (sz * st) = mixedRadix st sz t z c := by
        unfold mixedRadix; ring
      rw [e]
      calc mixedRadix st sz t z c < st * sz * sc := mixedRadix_lt ht hz hc
      _ = sz * st * sc := by ring
    · intro z t c z₂ t₂ c₂ hz ht hc hz₂ ht₂ hc₂ h
      have e : ∀ a b d : ℕ, a * st + b * 1 + d * (sz * st) = mixedRadix st sz b a d := by
        intro a b d; unfold mixedRadix; ring
      rw [e z t c, e z₂ t₂ c₂] at h
      obtain ⟨h1, h2, h3⟩ := mixedRadix_inj ht hz ht₂ hz₂ h
      exact ⟨h2, h1, h3⟩
    · intro n hn
      have hn' : n < st * sz * sc := lt_of_lt_of_eq hn (by ring)
      obtain ⟨a, b, d, ha, hb, hd, he⟩ := mixedRadix_surj hn'
      refine ⟨b, a, d, hb, ha, hd, ?_⟩
      have e : b * st + a * 1 + d * (sz * st) = mixedRadix st sz a b d := by
        unfold mixedRadix; ring
      rw [e]; exact he
  · refine ⟨1, sz * sc, sz, rfl, ?_, ?_, ?_⟩
    · intro z t c hz ht hc
      have e : z * 1 + t * (sz * sc) + c * sz = mixedRadix sz sc z c t := by
        unfold mixedRadix; ring
      rw [e]
      calc mixedRadix sz sc z c t < sz * sc * st := mixedRadix_lt hz hc ht
      _ = sz * st * sc := by ring
    · intro z t c z₂ t₂ c₂ hz ht hc hz₂ ht₂ hc₂ h
      have e : ∀ a b d : ℕ, a * 1 + b * (sz * sc) + d * sz = mixedRadix sz sc a d b := by
        intro a b d; unfold mixedRadix; ring
      rw [e z t c, e z₂ t₂ c₂] at h
      obtain ⟨h1, h2, h3⟩ := mixedRadix_inj hz hc hz₂ hc₂ h
      exact ⟨h1, h3, h2⟩
    · intro n hn
      have hn' : n < sz * sc * st := lt_of_lt_of_eq hn (by ring)
      obtain ⟨a, b, d, ha, hb, hd, he⟩ := mixedRadix_surj hn'
      refine ⟨a, d, b, ha, hd, hb, ?_⟩
      have e : a * 1 + d * (sz * sc) + b * sz = mixedRadix sz sc a b d := by
        unfold mixedRadix; ring
      rw [e]; exact he
  · refine ⟨st * sc, 1, st, rfl, ?_, ?_, ?_⟩
    · intro z t c hz ht hc
      have e : z * (st * sc) + t * 1 + c * st = mixedRadix st sc t c z := by
        unfold mixedRadix; ring
      rw [e]
      calc mixedRadix st sc t c z < st * sc * sz := mixedRadix_lt ht hc hz
      _ = sz * st * sc := by ring
    · intro z t c z₂ t₂ c₂ hz ht hc hz₂ ht₂ hc₂ h
      have e : ∀ a b d : ℕ, a * (st * sc) + b * 1 + d * st = mixedRadix st sc b d a := by
        intro a b d; unfold mixedRadix; ring
      rw [e z t c, e z₂ t₂ c₂] at h
      obtain ⟨h1, h2, h3⟩ := mixedRadix_inj ht hc ht₂ hc₂ h
      exact ⟨h3, h1, h2⟩
    · intro n hn
      have hn' : n < st * sc * sz := lt_of_lt_of_eq hn (by ring)
      obtain ⟨a, b, d, ha, hb, hd, he⟩ := mixedRadix_surj hn'
      refine ⟨d, a, b, hd, ha, hb, ?_⟩
      have e : d * (st * sc) + a * 1 + b * st = mixedRadix st sc a b d := by
        unfold mixedRadix; ring
      rw [e]; exact he
  · refine ⟨sc, sc * sz, 1, rfl, ?_, ?_, ?_⟩
    · intro z t c hz ht hc
      have e : z * sc + t * (sc * sz) + c * 1 = mixedRadix sc sz c z t := by
        unfold mixedRadix; ring
      rw [e]
      calc mixedRadix sc sz c z t < sc * sz * st := mixedRadix_lt hc hz ht
      _ = sz * st * sc := by ring
    · intro z t c z₂ t₂ c₂ hz ht hc hz₂ ht₂ hc₂ h
      have e : ∀ a b d : ℕ, a * sc + b * (sc * sz) + d * 1 = mixedRadix sc sz d a b := by
        intro a b d; unfold mixedRadix; ring
      rw [e z t c, e z₂ t₂ c₂] at h
      obtain ⟨h1, h2, h3⟩ := mixedRadix_inj hc hz hc₂ hz₂ h
      exact ⟨h2, h3, h1⟩
    · intro n hn
      have hn' : n < sc * sz * st := lt_of_lt_of_eq hn (by ring)
      obtain ⟨a, b, d, ha, hb, hd, he⟩ := mixedRadix_surj hn'
      refine ⟨b, d, a, hb, hd, ha, ?_⟩
      have e : b * sc + d * (sc * sz) + a * 1 = mixedRadix sc sz a b d := by
        unfold mixedRadix; ring
      rw [e]; exact he
  · refine ⟨st * sc, sc, 1, rfl, ?_, ?_, ?_⟩
    · intro z t c hz ht hc
      have e : z * (st * sc) + t * sc + c * 1 = mixedRadix sc st c t z := by
        unfold mixedRadix; ring
      rw [e]
      calc mixedRadix sc st c t z < sc * st * sz := mixedRadix_lt hc ht hz
      _ = sz * st * sc := by ring
    · intro z t c z₂ t₂ c₂ hz ht hc hz₂ ht₂ hc₂ h
      have e : ∀ a b d : ℕ, a * (st * sc) + b * sc + d * 1 = mixedRadix sc st d b a := by
        intro a b d; unfold mixedRadix; ring
      rw [e z t c, e z₂ t₂ c₂] at h
      obtain ⟨h1, h2, h3⟩ := mixedRadix_inj hc ht hc₂ ht₂ h
      exact ⟨h3, h2, h1⟩
    · intro n hn
      have hn' : n < sc * st * sz := lt_of_lt_of_eq hn (by ring)
      obtain ⟨a, b, d, ha, hb, hd, he⟩ := mixedRadix_surj hn'
      refine ⟨d, b, a, hd, hb, ha, ?_⟩
      have e : d * (st * sc) + b * sc + a * 1 = mixedRadix sc st a b d := by
        unfold mixedRadix; ring
      rw [e]; exact he

/-- C2 witness: order `XYZTC` with sizes (2,3,1) yields strides (1,2,6), the
example point (z=1,t=2,c=0) maps to slice 5, and the bijection theorem applies. -/
theorem XYZTCDataSource_stride_bijection_witness :
    XYZTCDataSource_strides "XYZTC" 2 3 1 = Except.ok (1, 2, 6) ∧
    1 * 1 + 2 * 2 + 0 * 6 = 5 ∧
    (∃ zs ts cs, XYZTCDataSource_strides "XYZTC" 2 3 1 = Except.ok (zs, ts, cs) ∧
      (∀ z t c, z < 2 → t < 3 → c < 1 →
        z * zs + t * ts + c * cs < 2 * 3 * 1) ∧
      (∀ z t c z₂ t₂ c₂, z < 2 → t < 3 → c < 1 → z₂ < 2 → t₂ < 3 → c₂ < 1 →
        z * zs + t * ts + c * cs = z₂ * zs + t₂ * ts + c₂ * cs →
        z = z₂ ∧ t = t₂ ∧ c = c₂) ∧
      (∀ n, n < 2 * 3 * 1 →
        ∃ z t c, z < 2 ∧ t < 3 ∧ c < 1 ∧ z * zs + t * ts + c * cs = n)) :=
  ⟨rfl, rfl,
    XYZTCDataSource_stride_bijection "XYZTC" (Or.inl rfl) 2 3 1
      (by decide) (by decide) (by decide)⟩

theorem XYTCDataSource_getitem_hit (ds : XYTCDataSource) (st : XYTCState)
    (keys : List PySpec) (h : st.oldSlice = some (normKeys keys)) :
    XYTCDataSource_getitem ds st keys = (.ok st.oldData, st, 0) := by
  unfold XYTCDataSource_getitem
  rw [if_pos h]

theorem XYTCDataSource_getitem_miss (ds : XYTCDataSource) (st : XYTCState)
    (keys : List PySpec) (h : ¬ st.oldSlice = some (normKeys keys)) :
    XYTCDataSource_getitem ds st keys =
      match XYTCDataSource_compute ds (normKeys keys) with
      | (.ok r, n) => (.ok (some r), ⟨some (normKeys keys), some r⟩, n)
      | (.error e, n) => (.error e, ⟨some (normKeys keys), st.oldData⟩, n) := by
  unfold XYTCDataSource_getitem
  rw [if_neg h]

/-- After any successful read the cache state records the normalised key and
the returned data. -/
theorem XYTCDataSource_getitem_ok_state (ds : XYTCDataSource) (st : XYTCState)
    (keys : List PySpec) (r : Option NpArr) (st' : XYTCState) (n : ℕ)
    (h : XYTCDataSource_getitem ds st keys = (.ok r, st', n)) :
    st'.oldSlice = some (normKeys keys) ∧ st'.oldData = r := by
  by_cases hc : st.oldSlice = some (normKeys keys)
  · rw [XYTCDataSource_getitem_hit ds st keys hc] at h
    simp only [Prod.mk.injEq, Except.ok.injEq] at h
    obtain ⟨h1, h2, h3⟩ := h
    subst h2
    exact ⟨hc, h1⟩
  · rw [XYTCDataSource_getitem_miss ds st keys hc] at h
    rcases hcomp : XYTCDataSource_compute ds (normKeys keys) with ⟨res, cnt⟩
    rw [hcomp] at h
    cases res with
    | ok a =>
      simp only [Prod.mk.injEq, Except.ok.injEq] at h
      obtain ⟨h1, h2, h3⟩ := h
      subst h2
      exact ⟨rfl, h1⟩
    | error e =>
      simp only [Prod.mk.injEq] at h
      exact absurd h.1 (by simp)

/-- C3: for the legacy datasource, a second read with the identical index
specifiers returns the same data with zero physical slice reads, and any
subsequent read whose normalised specifier differs from the cached one
does not return the cached array: its result and its physical-read count are
exactly those of a fresh computation. -/
theorem XYTCDataSource_cache_behaviour (ds : XYTCDataSource) (st : XYTCState)
    (keys : List PySpec) (r : Option NpArr) (st' : XYTCState) (n : ℕ)
    (h : XYTCDataSource_getitem ds st keys = (.ok r, st', n)) :
    XYTCDataSource_getitem ds st' keys = (.ok r, st', 0) ∧
    ∀ keys₂, st'.oldSlice ≠ some (normKeys keys₂) →
      (XYTCDataSource_getitem ds st' keys₂).1 =
        Except.map some (XYTCDataSource_compute ds (normKeys keys₂)).1 ∧
      (XYTCDataSource_getitem ds st' keys₂).2.2 =
        (XYTCDataSource_compute ds (normKeys keys₂)).2 := by
  obtain ⟨hs, hd⟩ := XYTCDataSource_getitem_ok_state ds st keys r st' n h
  constructor
  · rw [XYTCDataSource_getitem_hit ds st' keys hs, hd]
  · intro keys₂ hne
    rw [XYTCDataSource_getitem_miss ds st' keys₂ hne]
    rcases XYTCDataSource_compute ds (normKeys keys₂) with ⟨res, cnt⟩
    cases res with
    | ok a => exact ⟨rfl, rfl⟩
    | error e => exact ⟨rfl, rfl⟩

/-- C9: the legacy read updates its cache key before any physical read, so
after a successful read `A` and a *failed* read with a different specifier
`B`, repeating `B` returns — from the cache, with no physical read — the
array that was computed for `A`. -/
theorem XYTCDataSource_stale_cache_after_failure (ds : XYTCDataSource)
    (st : XYTCState) (keysA keysB : List PySpec) (rA : NpArr)
    (stA stB : XYTCState) (nA nB : ℕ) (e : PyErr)
    (hA : XYTCDataSource_getitem ds st keysA = (.ok (some rA), stA, nA))
    (hB : XYTCDataSource_getitem ds stA keysB = (.error e, stB, nB)) :
    XYTCDataSource_getitem ds stB keysB = (.ok (some rA), stB, 0) := by
  obtain ⟨hsA, hdA⟩ := XYTCDataSource_getitem_ok_state ds st keysA (some rA) stA nA hA
  by_cases hc : stA.oldSlice = some (normKeys keysB)
  · rw [XYTCDataSource_getitem_hit ds stA keysB hc] at hB
    simp only [Prod.mk.injEq] at hB
    exact absurd hB.1 (by simp)
  · rw [XYTCDataSource_getitem_miss ds stA keysB hc] at hB
    rcases hcomp : XYTCDataSource_compute ds (normKeys keysB) with ⟨res, cnt⟩
    rw [hcomp] at hB
    cases res with
    | ok a =>
      simp only [Prod.mk.injEq] at hB
      exact absurd hB.1 (by simp)
    | error e₂ =>
      simp only [Prod.mk.injEq] at hB
      obtain ⟨_, h2, _⟩ := hB
      have hstB : stB = ⟨some (normKeys keysB), stA.oldData⟩ := h2.symm
      rw [XYTCDataSource_getitem_hit ds stB keysB (by rw [hstB])]
      rw [hstB, hdA]

/-- C3 witness: reading `dsT3[:, :, 0]` from an empty cache succeeds with one
physical read; the theorem then gives the cached repeat (zero reads) and the
recomputation guarantee for different specifiers. -/
theorem XYTCDataSource_cache_behaviour_witness :
    (XYTCDataSource_getitem dsT3 {} keysA3 = (.ok (some arrA), stA3, 1)) ∧
    (XYTCDataSource_getitem dsT3 stA3 keysA3 = (.ok (some arrA), stA3, 0) ∧
      ∀ keys₂, stA3.oldSlice ≠ some (normKeys keys₂) →
        (XYTCDataSource_getitem dsT3 stA3 keys₂).1 =
          Except.map some (XYTCDataSource_compute dsT3 (normKeys keys₂)).1 ∧
        (XYTCDataSource_getitem dsT3 stA3 keys₂).2.2 =
          (XYTCDataSource_compute dsT3 (normKeys keys₂)).2) :=
  ⟨rfl, XYTCDataSource_cache_behaviour dsT3 {} keysA3 (some arrA) stA3 1 rfl⟩

/-- C9 witness: read `A = dsT3[:, :, 0]` succeeds; read `B` (an empty range,
on which the concatenation raises `ValueError`) fails after the cache key was
already updated; repeating `B` then returns the array computed for `A`. -/
theorem XYTCDataSource_stale_cache_after_failure_witness :
    (XYTCDataSource_getitem dsT3 {} keysA3 = (.ok (some arrA), stA3, 1)) ∧
    (XYTCDataSource_getitem dsT3 stA3 keysB3 = (.error .valueError, stB3, 0)) ∧
    (XYTCDataSource_getitem dsT3 stB3 keysB3 = (.ok (some arrA), stB3, 0)) :=
  ⟨rfl, rfl,
    XYTCDataSource_stale_cache_after_failure dsT3 {} keysA3 keysB3 arrA stA3 stB3
      1 0 .valueError rfl rfl⟩

/-- C4 counterexample: the read `dsT3[:, :, slice(5, 5)]` — whose extra-axis
range clamps to empty — raises `ValueError` (numpy cannot concatenate zero
arrays) instead of returning an empty well-shaped array. -/
theorem XYTCDataSource_empty_range_counterexample :
    XYTCDataSource_getitem dsT3 {} keysB3 =
      (.error .valueError, ⟨some (normKeys keysB3), none⟩, 0) := rfl

/-- C4 (amended): a legacy read whose clamped range is empty *raises* instead
of returning an empty array: in the single-extra-axis branch an empty
extra-axis range gives `ValueError` from concatenating zero slices, and in
the interleaved branch an empty channel range gives `IndexError` from
`r[0]` on the empty per-channel list. -/
theorem XYTCDataSource_empty_range_raises :
    (∀ (ds : XYTCDataSource) (st : XYTCState) (keys : List PySpec)
      (k0 k1 k2 : PySlice) (rest : List PySlice) (tr : ℤ × ℤ × ℤ),
      ds.additionalDims.length ≤ 1 → ds.additionalDims ≠ "C" →
      st.oldSlice ≠ some (normKeys keys) →
      normKeys keys = k0 :: k1 :: k2 :: rest →
      sliceIndices k2 (ds.getNumSlices : ℤ) = .ok tr →
      pyRange tr = [] →
      (XYTCDataSource_getitem ds st keys).1 = .error .valueError) ∧
    (∀ (ds : XYTCDataSource) (st : XYTCState) (keys : List PySpec)
      (k0 k1 k2 k3 : PySlice) (rest : List PySlice) (ct : ℤ × ℤ × ℤ),
      (ds.additionalDims.length = 2 ∨ ds.additionalDims = "C") →
      ¬ (ds.additionalDims.length ≤ 1 ∧ ds.additionalDims ≠ "C") →
      ds.sizeC ≠ 0 →
      st.oldSlice ≠ some (normKeys keys) →
      normKeys keys = k0 :: k1 :: k2 :: k3 :: rest →
      sliceIndices k3 (ds.sizeC : ℤ) = .ok ct →
      pyRange ct = [] →
      (XYTCDataSource_getitem ds st keys).1 = .error .indexError) := by
  constructor
  · intro ds st keys k0 k1 k2 rest tr hlen hnC hmiss hkeys htr hempty
    rw [XYTCDataSource_getitem_miss ds st keys hmiss]
    have hcomp : XYTCDataSource_compute ds (normKeys keys) = (.error .valueError, 0) := by
      rw [hkeys]
      unfold XYTCDataSource_compute
      rw [if_pos ⟨hlen, hnC⟩]
      simp only [XYTCDataSource_branchA, htr, hempty, readCropped, npConcat3,
        Except.map]
    rw [hcomp]
  · intro ds st keys k0 k1 k2 k3 rest ct hB hnA hc hmiss hkeys hct hempty
    rw [XYTCDataSource_getitem_miss ds st keys hmiss]
    have hcomp : XYTCDataSource_compute ds (normKeys keys) = (.error .indexError, 0) := by
      rw [hkeys]
      unfold XYTCDataSource_compute
      rw [if_neg hnA, if_pos hB]
      simp only [XYTCDataSource_branchB, hc, if_false, hct, hempty,
        XYTCDataSource_channels, List.length_nil, ite_false]
      norm_num
    rw [hcomp]

/-- C4 witness: the single-extra-axis case (`dsT3[:, :, 5:5]` →
`ValueError`) and the interleaved case with an empty channel range
(`dsTC[:, :, :, 5:5]` → `IndexError`). -/
theorem XYTCDataSource_empty_range_raises_witness :
    (XYTCDataSource_getitem dsT3 {} keysB3).1 = .error .valueError ∧
    (XYTCDataSource_getitem dsTC {} keysEmptyC).1 = .error .indexError :=
  ⟨XYTCDataSource_empty_range_raises.1 dsT3 {} keysB3 _ _ _ [] (3, 3, 1)
      (by decide) (by decide) (by decide) rfl rfl rfl,
    XYTCDataSource_empty_range_raises.2 dsTC {} keysEmptyC _ _ _ _ [] (2, 2, 1)
      (by decide) (by decide) (by decide) (by decide) rfl rfl rfl⟩

/-- C1: the canonical read allocates its output in `'XYZTC'` axis order but
writes `out[:, :, zi, ci, ti]` (channel index on the time-extent axis and
vice versa): on a source with `size_t = 2`, `size_c = 1` the full-range read
raises `IndexError` instead of returning the dense block the contract
describes. -/
theorem XYZTCDataSource_getitem_axis_mismatch :
    XYZTCWrapper_mk dsT2 "XYZTC" 1 2 1 = .ok wT2 ∧
    XYZTCDataSource_getitem wT2 keys5 = .error .indexError :=
  ⟨rfl, rfl⟩

/-- C7: slice access, slice shape and the underlying slice data are forwarded
unchanged by both wrappers, but `is_complete` — a property evaluating to a
bool on every in-repo datasource — is *called* by the wrappers
(`self._datasource.is_complete()`), which raises `TypeError` instead of
returning the flag. -/
theorem wrapper_is_complete_raises :
    (∀ w : XYZTCWrapper, XYZTCWrapper.getSlice w = w.base.getSlice ∧
      (XYTCWrapper_mk w).slices = w.base.slices ∧
      (XYTCWrapper_mk w).sliceShape = w.base.sliceShape ∧
      (XYTCWrapper_mk w).sizeC = w.size_c) ∧
    BaseDataSource_is_complete = true ∧
    (∀ b : Bool, XYZTCWrapper_is_complete b = .error .typeError) ∧
    XYTCWrapper_is_complete (XYZTCWrapper_is_complete BaseDataSource_is_complete) =
      .error .typeError :=
  ⟨fun _ => ⟨rfl, rfl, rfl, rfl⟩, rfl, fun _ => rfl, rfl⟩

/-- C5 counterexample: in the channel-interleave heuristic branch the round
trip is *not* bit-identical: promoting the two-channel `'CT'` source `dsCT`
and flattening it back reads under the `'TC'` rule, giving a different
channel decomposition than reading `dsCT` directly. -/
theorem XYZTCWrapper_round_trip_counterexample :
    (XYZTCWrapper_auto_promote dsCT).map
        (fun w => (XYTCDataSource_getitem (XYTCWrapper_mk w) {} keys4).1) =
      .ok (.ok (some flatCTResult)) ∧
    (XYTCDataSource_getitem dsCT {} keys4).1 = .ok (some directCTResult) ∧
    flatCTResult ≠ directCTResult :=
  ⟨rfl, rfl, by decide⟩

/-- C5 (amended): promote-then-flatten round trips are bit-identical to the
direct legacy read in the depth branch (extent ≤ 100, `dsT2`), the
time-series branch (extent > 100, `dsLong`), and in the channel-interleave
branch only degenerately (`dsCT1`, a single channel); with two or more
channels that branch differs (see the counterexample). -/
theorem XYZTCWrapper_round_trip_amended :
    (XYZTCWrapper_auto_promote dsT2).map
        (fun w => (XYTCDataSource_getitem (XYTCWrapper_mk w) {} keys4).1) =
      .ok ((XYTCDataSource_getitem dsT2 {} keys4).1) ∧
    (XYTCDataSource_getitem dsT2 {} keys4).1 =
      .ok (some (.d3 [markerPlane 0, markerPlane 1])) ∧
    (XYZTCWrapper_auto_promote dsLong).map
        (fun w => (XYTCDataSource_getitem (XYTCWrapper_mk w) {} keys4).1) =
      .ok ((XYTCDataSource_getitem dsLong {} keys4).1) ∧
    (XYZTCWrapper_auto_promote dsCT1).map
        (fun w => (XYTCDataSource_getitem (XYTCWrapper_mk w) {} keys4).1) =
      .ok ((XYTCDataSource_getitem dsCT1 {} keys4).1) ∧
    (XYTCDataSource_getitem dsCT1 {} keys4).1 =
      .ok (some (.d3 [markerPlane 0, markerPlane 1])) :=
  ⟨rfl, rfl, rfl, rfl, rfl⟩

/-- C6 counterexample: `dsTC` deinterleaves by the channel-major rule
`index = t + c*sizeT` (slices 0,1 form channel 0), yet `auto_promote` does
*not* choose `'XYZCT'` for it; `dsCT` deinterleaves by the time-major rule
`index = t*sizeC + c` (slices 0,2 form channel 0), yet `auto_promote`
chooses `'XYZCT'` exactly for it. -/
theorem XYZTCWrapper_auto_promote_counterexample :
    (XYTCDataSource_getitem dsTC {} keys4).1 = .ok (some flatCTResult) ∧
    (XYZTCWrapper_auto_promote dsTC).map XYZTCWrapper.input_order = .ok "XYZTC" ∧
    (XYTCDataSource_getitem dsCT {} keys4).1 = .ok (some directCTResult) ∧
    (XYZTCWrapper_auto_promote dsCT).map XYZTCWrapper.input_order = .ok "XYZCT" :=
  ⟨rfl, rfl, rfl, rfl⟩

/-- C6 (amended): `auto_promote` chooses order `'XYZCT'` with `size_z = 1`,
`size_t = extent` exactly when the source's declared tag is `'CT'` — the tag
whose deinterleave rule is `index = t*sizeC + c` — and otherwise chooses
`'XYZTC'` with the extent read as time when it exceeds 100 and as depth
otherwise; in every branch `size_c` is the declared channel count. -/
theorem XYZTCWrapper_auto_promote_characterisation (ds : XYTCDataSource)
    (hc : ds.sizeC ≠ 0) :
    ∃ w, XYZTCWrapper_auto_promote ds = .ok w ∧
      w.size_c = ds.sizeC ∧
      (w.input_order = "XYZCT" ↔ ds.additionalDims = "CT") ∧
      (ds.additionalDims = "CT" → w.size_z = 1 ∧ w.size_t = ds.shape2) ∧
      (ds.additionalDims ≠ "CT" →
        w.input_order = "XYZTC" ∧
        (100 < ds.shape2 → w.size_z = 1 ∧ w.size_t = ds.shape2) ∧
        (ds.shape2 ≤ 100 → w.size_z = ds.shape2 ∧ w.size_t = 1)) := by
  unfold XYZTCWrapper_auto_promote
  rw [if_neg hc]
  by_cases hct : ds.additionalDims = "CT"
  · rw [if_pos hct]
    refine ⟨⟨"XYZCT", 1, 1 * ds.sizeC, 1, 1, ds.shape2, ds.sizeC, ds⟩, rfl, rfl, ?_, ?_, ?_⟩
    · simp [hct]
    · intro _; exact ⟨rfl, rfl⟩
    · intro h; exact absurd hct h
  · rw [if_neg hct]
    by_cases h100 : 100 < ds.shape2
    · rw [if_pos h100]
      refine ⟨⟨"XYZTC", 1, 1, 1 * ds.shape2, 1, ds.shape2, ds.sizeC, ds⟩, rfl, rfl, ?_, ?_, ?_⟩
      · constructor
        · intro h; simp at h
        · intro h; exact absurd h hct
      · intro h; exact absurd h hct
      · intro _
        refine ⟨rfl, fun _ => ⟨rfl, rfl⟩, fun hle => absurd h100 (not_lt.2 hle)⟩
    · rw [if_neg h100]
      refine ⟨⟨"XYZTC", 1, ds.shape2, ds.shape2 * 1, ds.shape2, 1, ds.sizeC, ds⟩, rfl, rfl, ?_, ?_, ?_⟩
      · constructor
        · intro h; simp at h
        · intro h; exact absurd h hct
      · intro h; exact absurd h hct
      · intro _
        exact ⟨rfl, fun hgt => absurd hgt h100, fun _ => ⟨rfl, rfl⟩⟩

/-- C6 witness: the characterisation applied to the two-channel `'CT'`
source `dsCT`. -/
theorem XYZTCWrapper_auto_promote_characterisation_witness :
    dsCT.sizeC ≠ 0 ∧
    ∃ w, XYZTCWrapper_auto_promote dsCT = .ok w ∧
      w.size_c = dsCT.sizeC ∧
      (w.input_order = "XYZCT" ↔ dsCT.additionalDims = "CT") ∧
      (dsCT.additionalDims = "CT" → w.size_z = 1 ∧ w.size_t = dsCT.shape2) ∧
      (dsCT.additionalDims ≠ "CT" →
        w.input_order = "XYZTC" ∧
        (100 < dsCT.shape2 → w.size_z = 1 ∧ w.size_t = dsCT.shape2) ∧
        (dsCT.shape2 ≤ 100 → w.size_z = dsCT.shape2 ∧ w.size_t = 1)) :=
  ⟨by decide, XYZTCWrapper_auto_promote_characterisation dsCT (by decide)⟩

/-- C10: the legacy `shape` is total under indexing — at every index where an
ordinary Python list of the four shape entries would raise `IndexError`,
`DefaultList` returns the default value 1 instead. -/
theorem DefaultList_shape_total (ds : XYTCDataSource) (l : List ℤ) (i : ℤ)
    (hs : ds.shapeList = .ok l) (hraise : pyListGet l i = none) :
    DefaultList_getitem l i = 1 := by
  unfold DefaultList_getitem
  rw [hraise]
  rfl

/-- C10 witness: `dsT3.shape` is `[1, 1, 3, 1]`; `shape[4]` would raise on an
ordinary list and yields 1 on the `DefaultList`. -/
theorem DefaultList_shape_total_witness :
    dsT3.shapeList = .ok [1, 1, 3, 1] ∧
    pyListGet [1, 1, 3, 1] 4 = none ∧
    DefaultList_getitem [1, 1, 3, 1] 4 = 1 :=
  ⟨rfl, rfl, DefaultList_shape_total dsT3 [1, 1, 3, 1] 4 rfl rfl⟩

theorem qlog2Aux_spec : ∀ (fuel n c : ℕ), 0 < c → c ≤ n → n < c * 2 ^ fuel →
    c * 2 ^ qlog2Aux fuel n c ≤ n ∧ n < c * 2 ^ (qlog2Aux fuel n c + 1) := by
  intro fuel
  induction fuel with
  | zero =>
    intro n c hc hcn hlt
    simp only [pow_zero, mul_one] at hlt
    omega
  | succ f ih =>
    intro n c hc hcn hlt
    by_cases h2 : c * 2 ≤ n
    · have hfuel : n < c * 2 * 2 ^ f := by
        calc n < c * 2 ^ (f + 1) := hlt
        _ = c * 2 * 2 ^ f := by rw [pow_succ]; ring
      obtain ⟨ih1, ih2⟩ := ih n (c * 2) (by omega) h2 hfuel
      have hq : qlog2Aux (f + 1) n c = qlog2Aux f n (c * 2) + 1 := by
        simp only [qlog2Aux, if_pos h2]
      rw [hq]
      constructor
      · calc c * 2 ^ (qlog2Aux f n (c * 2) + 1)
            = c * 2 * 2 ^ qlog2Aux f n (c * 2) := by rw [pow_succ]; ring
        _ ≤ n := ih1
      · calc n < c * 2 * 2 ^ (qlog2Aux f n (c * 2) + 1) := ih2
        _ = c * 2 ^ (qlog2Aux f n (c * 2) + 1 + 1) := by rw [pow_succ]; ring
    · have hq : qlog2Aux (f + 1) n c = 0 := by
        simp only [qlog2Aux, if_neg h2]
      rw [hq]
      simp only [pow_zero, mul_one, pow_one]
      omega

theorem qlog2_spec (n c : ℕ) (hc : 0 < c) (hcn : c ≤ n) :
    c * 2 ^ qlog2 n c ≤ n ∧ n < c * 2 ^ (qlog2 n c + 1) := by
  apply qlog2Aux_spec n n c hc hcn
  calc n < 2 ^ n := Nat.lt_two_pow n
  _ ≤ c * 2 ^ n := Nat.le_mul_of_pos_left _ hc

theorem qclog2Aux_spec : ∀ (fuel n c : ℕ), 0 < n → c ≤ n * 2 ^ fuel →
    c ≤ n * 2 ^ qclog2Aux fuel n c ∧
      (qclog2Aux fuel n c = 0 ∨ n * 2 ^ qclog2Aux fuel n c < 2 * c) := by
  intro fuel
  induction fuel with
  | zero =>
    intro n c hn hfuel
    simp only [pow_zero, mul_one] at hfuel
    simp only [qclog2Aux, pow_zero, mul_one]
    exact ⟨hfuel, Or.inl trivial⟩
  | succ f ih =>
    intro n c hn hfuel
    by_cases hcn : c ≤ n
    · have hq : qclog2Aux (f + 1) n c = 0 := by
        simp only [qclog2Aux, if_pos hcn]
      rw [hq]
      simp only [pow_zero, mul_one]
      exact ⟨hcn, Or.inl trivial⟩
    · have hfuel' : c ≤ n * 2 * 2 ^ f := by
        calc c ≤ n * 2 ^ (f + 1) := hfuel
        _ = n * 2 * 2 ^ f := by rw [pow_succ]; ring
      obtain ⟨ih1, ih2⟩ := ih (n * 2) c (by omega) hfuel'
      have hq : qclog2Aux (f + 1) n c = qclog2Aux f (n * 2) c + 1 := by
        simp only [qclog2Aux, if_neg hcn]
      rw [hq]
      constructor
      · calc c ≤ n * 2 * 2 ^ qclog2Aux f (n * 2) c := ih1
        _ = n * 2 ^ (qclog2Aux f (n * 2) c + 1) := by rw [pow_succ]; ring
      · right
        rcases ih2 with h0 | hlt
        · rw [h0]
          norm_num
          omega
        · calc n * 2 ^ (qclog2Aux f (n * 2) c + 1)
              = n * 2 * 2 ^ qclog2Aux f (n * 2) c := by rw [pow_succ]; ring
          _ < 2 * c := hlt

theorem qclog2_spec (n c : ℕ) (hn : 0 < n) :
    c ≤ n * 2 ^ qclog2 n c ∧ (qclog2 n c = 0 ∨ n * 2 ^ qclog2 n c < 2 * c) := by
  apply qclog2Aux_spec c n c hn
  calc c ≤ 2 ^ c := Nat.le_of_lt (Nat.lt_two_pow c)
  _ ≤ n * 2 ^ c := Nat.le_mul_of_pos_left _ hn

/-- The rounded value differs from the exact fraction by at most half an ulp:
`|rheFrac p q - p/q| ≤ 1/2`, stated multiplied out over ℕ. -/
theorem rheFrac_bounds (p q : ℕ) (hq : 0 < q) :
    2 * p ≤ 2 * rheFrac p q * q + q ∧ 2 * rheFrac p q * q ≤ 2 * p + q := by
  have hp2 : 2 * (p / q) * q + 2 * (p % q) = 2 * p := by
    have hp := Nat.div_add_mod p q
    calc 2 * (p / q) * q + 2 * (p % q) = 2 * (q * (p / q) + p % q) := by ring
    _ = 2 * p := by rw [hp]
  have hrq : p % q < q := Nat.mod_lt _ hq
  have hcases : rheFrac p q = p / q ∧ 2 * (p % q) ≤ q ∨
      rheFrac p q = p / q + 1 ∧ q ≤ 2 * (p % q) := by
    dsimp only [rheFrac]
    split_ifs with h1 h2 h3
    · exact Or.inl ⟨rfl, Nat.le_of_lt h1⟩
    · exact Or.inr ⟨rfl, Nat.le_of_lt h2⟩
    · exact Or.inl ⟨rfl, Nat.le_of_not_lt h2⟩
    · exact Or.inr ⟨rfl, Nat.le_of_not_lt h1⟩
  rcases hcases with ⟨hm, hr⟩ | ⟨hm, hr⟩ <;> rw [hm]
  · constructor
    · calc 2 * p = 2 * (p / q) * q + 2 * (p % q) := hp2.symm
      _ ≤ 2 * (p / q) * q + q := Nat.add_le_add_left hr _
    · calc 2 * (p / q) * q ≤ 2 * (p / q) * q + 2 * (p % q) := Nat.le_add_right _ _
      _ = 2 * p := hp2
      _ ≤ 2 * p + q := Nat.le_add_right _ _
  · have hexp : 2 * (p / q + 1) * q = 2 * (p / q) * q + 2 * q := by ring
    constructor
    · calc 2 * p = 2 * (p / q) * q + 2 * (p % q) := hp2.symm
      _ ≤ 2 * (p / q) * q + 2 * q :=
        Nat.add_le_add_left (Nat.mul_le_mul_left 2 (Nat.le_of_lt hrq)) _
      _ ≤ 2 * (p / q) * q + 2 * q + q := Nat.le_add_right _ _
      _ = 2 * (p / q + 1) * q + q := by rw [hexp]
    · calc 2 * (p / q + 1) * q = 2 * (p / q) * q + 2 * q := hexp
      _ ≤ 2 * (p / q) * q + (2 * (p % q) + q) := by
        apply Nat.add_le_add_left
        calc 2 * q = q + q := by ring
        _ ≤ 2 * (p % q) + q := Nat.add_le_add_right hr q
      _ = 2 * (p / q) * q + 2 * (p % q) + q := by ring
      _ = 2 * p + q := by rw [hp2]

/-- Core rounding fact: truncating the half-even rounding of the scaled
fraction `n*2^a / c` back by `2^a` recovers the integer quotient `n / c`,
provided the quotient is either exact or at least half an ulp away from the
two neighbouring integers. -/
theorem rheFrac_scaled (n c a : ℕ) (hc : 0 < c)
    (h : n % c = 0 ∨ c < 2 * (n % c) * 2 ^ a ∧ c < 2 * (c - n % c) * 2 ^ a) :
    rheFrac (n * 2 ^ a) c / 2 ^ a = n / c := by
  rcases h with hr0 | ⟨hb1, hb2⟩
  · obtain ⟨K, hK⟩ : ∃ K, n = c * K := by
      refine ⟨n / c, ?_⟩
      conv_lhs => rw [← Nat.div_add_mod n c]
      rw [hr0, Nat.add_zero]
    subst hK
    have h1 : c * K * 2 ^ a = c * (K * 2 ^ a) := by ring
    rw [h1]
    have h2 : rheFrac (c * (K * 2 ^ a)) c = K * 2 ^ a := by
      dsimp only [rheFrac]
      rw [Nat.mul_mod_right, Nat.mul_div_cancel_left _ hc]
      rw [if_pos (show 2 * 0 < c by omega)]
    rw [h2, Nat.mul_div_cancel _ (pow_pos (by norm_num) a),
      Nat.mul_div_cancel_left _ hc]
  · obtain ⟨B1, B2⟩ := rheFrac_bounds (n * 2 ^ a) c hc
    have hnc : c * (n / c) + n % c = n := Nat.div_add_mod n c
    have hPP : 2 * (n * 2 ^ a) =
        2 * c * (n / c * 2 ^ a) + 2 * (n % c) * 2 ^ a := by
      conv_lhs => rw [← hnc]
      ring
    have hlow : n / c * 2 ^ a < rheFrac (n * 2 ^ a) c := by
      have step : 2 * c * (n / c * 2 ^ a) + 2 * (n % c) * 2 ^ a ≤
          2 * rheFrac (n * 2 ^ a) c * c + c := by
        calc 2 * c * (n / c * 2 ^ a) + 2 * (n % c) * 2 ^ a
            = 2 * (n * 2 ^ a) := hPP.symm
        _ ≤ 2 * rheFrac (n * 2 ^ a) c * c + c := B1
      have h4 : 2 * c * (n / c * 2 ^ a) + c <
          2 * rheFrac (n * 2 ^ a) c * c + c := by
        calc 2 * c * (n / c * 2 ^ a) + c
            < 2 * c * (n / c * 2 ^ a) + 2 * (n % c) * 2 ^ a :=
              Nat.add_lt_add_left hb1 _
        _ ≤ 2 * rheFrac (n * 2 ^ a) c * c + c := step
      have h5 : 2 * c * (n / c * 2 ^ a) < 2 * rheFrac (n * 2 ^ a) c * c :=
        Nat.lt_of_add_lt_add_right h4
      have h6 : 2 * c * (n / c * 2 ^ a) < 2 * c * rheFrac (n * 2 ^ a) c := by
        calc 2 * c * (n / c * 2 ^ a) < 2 * rheFrac (n * 2 ^ a) c * c := h5
        _ = 2 * c * rheFrac (n * 2 ^ a) c := by ring
      exact Nat.lt_of_mul_lt_mul_left h6
    have hrc : n % c ≤ c := Nat.le_of_lt (Nat.mod_lt n hc)
    have hsum : 2 * (n % c) * 2 ^ a + 2 * (c - n % c) * 2 ^ a =
        2 * c * 2 ^ a := by
      have hs : n % c + (c - n % c) = c := Nat.add_sub_cancel' hrc
      calc 2 * (n % c) * 2 ^ a + 2 * (c - n % c) * 2 ^ a
          = 2 * (n % c + (c - n % c)) * 2 ^ a := by ring
      _ = 2 * c * 2 ^ a := by rw [hs]
    have hhigh : rheFrac (n * 2 ^ a) c < (n / c + 1) * 2 ^ a := by
      have step2 : 2 * rheFrac (n * 2 ^ a) c * c ≤
          2 * c * (n / c * 2 ^ a) + 2 * (n % c) * 2 ^ a + c := by
        calc 2 * rheFrac (n * 2 ^ a) c * c ≤ 2 * (n * 2 ^ a) + c := B2
        _ = 2 * c * (n / c * 2 ^ a) + 2 * (n % c) * 2 ^ a + c := by rw [hPP]
      have step3 : 2 * rheFrac (n * 2 ^ a) c * c <
          2 * c * (n / c * 2 ^ a) + 2 * (n % c) * 2 ^ a + 2 * (c - n % c) * 2 ^ a := by
        calc 2 * rheFrac (n * 2 ^ a) c * c
            ≤ 2 * c * (n / c * 2 ^ a) + 2 * (n % c) * 2 ^ a + c := step2
        _ < 2 * c * (n / c * 2 ^ a) + 2 * (n % c) * 2 ^ a + 2 * (c - n % c) * 2 ^ a :=
          Nat.add_lt_add_left hb2 _
      have step4 : 2 * rheFrac (n * 2 ^ a) c * c <
          2 * c * ((n / c + 1) * 2 ^ a) := by
        calc 2 * rheFrac (n * 2 ^ a) c * c
            < 2 * c * (n / c * 2 ^ a) + 2 * (n % c) * 2 ^ a + 2 * (c - n % c) * 2 ^ a :=
              step3
        _ = 2 * c * (n / c * 2 ^ a) + (2 * (n % c) * 2 ^ a + 2 * (c - n % c) * 2 ^ a) := by
          ring
        _ = 2 * c * (n / c * 2 ^ a) + 2 * c * 2 ^ a := by rw [hsum]
        _ = 2 * c * ((n / c + 1) * 2 ^ a) := by ring
      have h7 : 2 * c * rheFrac (n * 2 ^ a) c < 2 * c * ((n / c + 1) * 2 ^ a) := by
        calc 2 * c * rheFrac (n * 2 ^ a) c
            = 2 * rheFrac (n * 2 ^ a) c * c := by ring
        _ < 2 * c * ((n / c + 1) * 2 ^ a) := step4
      exact Nat.lt_of_mul_lt_mul_left h7
    exact Nat.div_eq_of_lt_le (Nat.le_of_lt hlow) hhigh

/-- `int(n/c)` agrees with truncating integer division for every slice count
below `2^53` (the quotient is never rounded across an integer boundary). -/
theorem pyIntTrueDiv_eq_div (n c : ℕ) (hc : 0 < c) (hn : n < 2 ^ 53) :
    pyIntTrueDiv n c = n / c := by
  by_cases hz : n = 0
  · subst hz
    simp [pyIntTrueDiv]
  have hpos : 0 < n := Nat.pos_of_ne_zero hz
  unfold pyIntTrueDiv
  rw [if_neg hz]
  by_cases hcn : c ≤ n
  · rw [if_pos hcn]
    obtain ⟨hk1, hk2⟩ := qlog2_spec n c hc hcn
    have hk53 : qlog2 n c ≤ 52 := by
      by_contra hgt
      have h1 : (2 : ℕ) ^ 53 ≤ 2 ^ qlog2 n c :=
        Nat.pow_le_pow_right (by norm_num) (by omega)
      have h2 : (2 : ℕ) ^ qlog2 n c ≤ c * 2 ^ qlog2 n c :=
        Nat.le_mul_of_pos_left _ hc
      omega
    have ha : ((52 : ℤ) - (qlog2 n c : ℤ)).toNat = 52 - qlog2 n c := by omega
    have hb : ((qlog2 n c : ℤ) - 52).toNat = 0 := by omega
    dsimp only
    rw [ha, hb]
    simp only [pow_zero, mul_one]
    have hD : n % c = 0 ∨ c < 2 * (n % c) * 2 ^ (52 - qlog2 n c) ∧
        c < 2 * (c - n % c) * 2 ^ (52 - qlog2 n c) := by
      rcases Nat.eq_zero_or_pos (n % c) with hr0 | hrpos
      · exact Or.inl hr0
      · right
        have h52e : 52 - qlog2 n c + qlog2 n c = 52 := by omega
        have hsplit : (2 : ℕ) ^ 53 = 2 * 2 ^ (52 - qlog2 n c) * 2 ^ qlog2 n c := by
          calc (2 : ℕ) ^ 53 = 2 * 2 ^ 52 := by norm_num
          _ = 2 * (2 ^ (52 - qlog2 n c) * 2 ^ qlog2 n c) := by
            rw [← pow_add, h52e]
          _ = 2 * 2 ^ (52 - qlog2 n c) * 2 ^ qlog2 n c := by ring
        constructor
        · have key : c * 2 ^ qlog2 n c <
              2 * (n % c) * 2 ^ (52 - qlog2 n c) * 2 ^ qlog2 n c := by
            calc c * 2 ^ qlog2 n c ≤ n := hk1
            _ < 2 ^ 53 := hn
            _ ≤ n % c * 2 ^ 53 := Nat.le_mul_of_pos_left _ hrpos
            _ = n % c * (2 * 2 ^ (52 - qlog2 n c) * 2 ^ qlog2 n c) := by
              rw [hsplit]
            _ = 2 * (n % c) * 2 ^ (52 - qlog2 n c) * 2 ^ qlog2 n c := by ring
          exact lt_of_mul_lt_mul_right key (Nat.zero_le _)
        · have hcr : 0 < c - n % c := by
            have := Nat.mod_lt n hc
            omega
          have key : c * 2 ^ qlog2 n c <
              2 * (c - n % c) * 2 ^ (52 - qlog2 n c) * 2 ^ qlog2 n c := by
            calc c * 2 ^ qlog2 n c ≤ n := hk1
            _ < 2 ^ 53 := hn
            _ ≤ (c - n % c) * 2 ^ 53 := Nat.le_mul_of_pos_left _ hcr
            _ = (c - n % c) * (2 * 2 ^ (52 - qlog2 n c) * 2 ^ qlog2 n c) := by
              rw [hsplit]
            _ = 2 * (c - n % c) * 2 ^ (52 - qlog2 n c) * 2 ^ qlog2 n c := by ring
          exact lt_of_mul_lt_mul_right key (Nat.zero_le _)
    have hmain := rheFrac_scaled n c (52 - qlog2 n c) hc hD
    by_cases h52 : 52 ≤ qlog2 n c
    · have hk52 : qlog2 n c = 52 := le_antisymm hk53 h52
      rw [if_pos (by exact_mod_cast h52)]
      rw [hk52] at hmain ⊢
      simpa using hmain
    · rw [if_neg (by exact_mod_cast h52)]
      exact hmain
  · rw [if_neg hcn]
    have hnlt : n < c := Nat.lt_of_not_le hcn
    obtain ⟨hd1, hd2⟩ := qclog2_spec n c hpos
    have ha : ((52 : ℤ) - -(qclog2 n c : ℤ)).toNat = 52 + qclog2 n c := by omega
    have hb : ((-(qclog2 n c : ℤ)) - 52).toNat = 0 := by omega
    dsimp only
    rw [ha, hb]
    simp only [pow_zero, mul_one]
    rw [if_neg (by omega : ¬ (52 : ℤ) ≤ -(qclog2 n c : ℤ))]
    have hmod : n % c = n := Nat.mod_eq_of_lt hnlt
    have hD : n % c = 0 ∨ c < 2 * (n % c) * 2 ^ (52 + qclog2 n c) ∧
        c < 2 * (c - n % c) * 2 ^ (52 + qclog2 n c) := by
      right
      rw [hmod]
      have hsplit : 2 * 2 ^ (52 + qclog2 n c) = 2 ^ (53 + qclog2 n c) := by
        rw [show 53 + qclog2 n c = (52 + qclog2 n c) + 1 from by omega, pow_succ]
        ring
      constructor
      · calc c ≤ n * 2 ^ qclog2 n c := hd1
        _ < n * 2 ^ (53 + qclog2 n c) := by
          exact mul_lt_mul_of_pos_left
            (Nat.pow_lt_pow_right (by norm_num) (by omega)) hpos
        _ = 2 * n * 2 ^ (52 + qclog2 n c) := by rw [← hsplit]; ring
      · have hcr : 0 < c - n := by omega
        calc c ≤ n * 2 ^ qclog2 n c := hd1
        _ < 2 ^ 53 * 2 ^ qclog2 n c :=
          mul_lt_mul_of_pos_right hn (pow_pos (by norm_num) _)
        _ = 2 ^ (53 + qclog2 n c) := by rw [← pow_add]
        _ ≤ (c - n) * 2 ^ (53 + qclog2 n c) := Nat.le_mul_of_pos_left _ hcr
        _ = 2 * (c - n) * 2 ^ (52 + qclog2 n c) := by rw [← hsplit]; ring
    have hmain := rheFrac_scaled n c (52 + qclog2 n c) hc hD
    exact hmain

/-- C8 (amended): `shape()[2] = int(numSlices/sizeC)` equals
`numSlices // sizeC` — truncating, silently losing any remainder — for every
slice count below `2^53`; at larger counts the float-mediated true division
can round across an integer (see the counterexample). -/
theorem XYTCDataSource_shape2_div (ds : XYTCDataSource) (hc : 0 < ds.sizeC)
    (hn : ds.getNumSlices < 2 ^ 53) :
    ds.shape2 = ds.getNumSlices / ds.sizeC :=
  pyIntTrueDiv_eq_div ds.getNumSlices ds.sizeC hc hn

/-- C8 witness: 7 slices over 2 channels — `shape()[2] = 3`, the remainder
slice is silently lost. -/
theorem XYTCDataSource_shape2_div_witness :
    0 < ds7.sizeC ∧ ds7.getNumSlices < 2 ^ 53 ∧
    ds7.shape2 = ds7.getNumSlices / ds7.sizeC ∧
    ds7.getNumSlices / ds7.sizeC = 3 ∧ ds7.getNumSlices = 7 :=
  ⟨by decide, by decide, XYTCDataSource_shape2_div ds7 (by decide) (by decide),
    by decide, by decide⟩

theorem qlog2_big : qlog2 (2 ^ 53 + 1) 1 = 53 := by
  obtain ⟨h1, h2⟩ := qlog2_spec (2 ^ 53 + 1) 1 (by norm_num) (by norm_num)
  rw [one_mul] at h1 h2
  rcases Nat.lt_trichotomy (qlog2 (2 ^ 53 + 1) 1) 53 with hlt | heq | hgt
  · exfalso
    have hle : (2 : ℕ) ^ (qlog2 (2 ^ 53 + 1) 1 + 1) ≤ 2 ^ 53 :=
      Nat.pow_le_pow_right (by norm_num) (by omega)
    omega
  · exact heq
  · exfalso
    have hle : (2 : ℕ) ^ 54 ≤ 2 ^ qlog2 (2 ^ 53 + 1) 1 :=
      Nat.pow_le_pow_right (by norm_num) (by omega)
    have he : (2 : ℕ) ^ 54 = 2 * 2 ^ 53 := by
      rw [pow_succ]; ring
    omega

theorem pyIntTrueDiv_big : pyIntTrueDiv (2 ^ 53 + 1) 1 = 2 ^ 53 := by
  unfold pyIntTrueDiv
  rw [if_neg (by norm_num)]
  rw [if_pos (by norm_num : (1 : ℕ) ≤ 2 ^ 53 + 1)]
  dsimp only
  rw [qlog2_big]
  rw [show ((52 : ℤ) - ((53 : ℕ) : ℤ)).toNat = 0 from by decide]
  rw [show (((53 : ℕ) : ℤ) - (52 : ℤ)).toNat = 1 from by decide]
  rw [if_pos (show (52 : ℤ) ≤ ((53 : ℕ) : ℤ) from by decide)]
  have hfrac : rheFrac (2 ^ 53 + 1) 2 = 2 ^ 52 := by
    have hdiv : (2 ^ 53 + 1) / 2 = 2 ^ 52 := by decide
    have hmod : (2 ^ 53 + 1) % 2 = 1 := by decide
    dsimp only [rheFrac]
    rw [hdiv, hmod]
    rw [if_neg (by norm_num), if_neg (by norm_num)]
    rw [if_pos (show (2 : ℕ) ^ 52 % 2 = 0 from by decide)]
  have hstep : (2 ^ 53 + 1) * 2 ^ 0 = 2 ^ 53 + 1 := by norm_num
  have hstep2 : 1 * 2 ^ 1 = 2 := by norm_num
  rw [hstep, hstep2, hfrac]
  norm_num

/-- C8 counterexample: with `2^53 + 1` slices and one channel, `shape()[2]`
is `2^53`, not `numSlices // sizeC = 2^53 + 1`: the claim does not hold for
*every* slice count, because `int(n/c)` goes through binary64. -/
theorem XYTCDataSource_shape2_counterexample :
    dsHuge.getNumSlices = 2 ^ 53 + 1 ∧ dsHuge.sizeC = 1 ∧
    dsHuge.shape2 = 2 ^ 53 ∧
    dsHuge.shape2 ≠ dsHuge.getNumSlices / dsHuge.sizeC := by
  have hlen : dsHuge.getNumSlices = 2 ^ 53 + 1 := by
    show (List.replicate (2 ^ 53 + 1) ([] : Plane)).length = 2 ^ 53 + 1
    exact List.length_replicate _ _
  have hsh : dsHuge.shape2 = pyIntTrueDiv (2 ^ 53 + 1) 1 := by
    unfold XYTCDataSource.shape2
    rw [hlen]
    congr 1
  refine ⟨hlen, rfl, ?_, ?_⟩
  · rw [hsh, pyIntTrueDiv_big]
  · rw [hsh, pyIntTrueDiv_big, hlen]
    have : dsHuge.sizeC = 1 := rfl
    rw [this, Nat.div_one]
    have he : (2 : ℕ) ^ 53 < 2 ^ 53 + 1 := by omega
    omega
